import Mathlib

/-!
Verification of the KsPkg extractor (`src/ACE_Traditional_Chinese.py`).

The Python program is shallowly embedded: byte strings become `List Nat`
(each entry a byte value), Python ints become `Nat`/`Int` with explicit
two's-complement conversion where struct decodes signed fields, fallible
code returns `Except`, and filesystem side effects of the extraction
worker are reified as a trace value.
-/

/-! ## Hash primitive (`FnvHash.fnv1a_64`) -/

/-- Embedding of `FnvHash.fnv1a_64`: FNV-1a 64 over the bytes, truncating
to 64 bits at every step. -/
def fnv1a_64 (data : List Nat) : Nat :=
  data.foldl (fun h b => ((h ^^^ b) * 0x100000001B3) % (2 ^ 64)) 0xCBF29CE484222325

/-! ## Stream cipher (`xor_numpy`) -/

/-- Embedding of `np.resize(key_arr, (n,))` for a 1-d `uint8` array:
the key is repeated (tiled) and truncated to length `n`; an empty input
array yields a zero-filled result (NumPy zero-fills when resizing an
empty array). -/
def npResize (key : List Nat) (n : Nat) : List Nat :=
  if key = [] then List.replicate n 0
  else (List.flatten (List.replicate (n / key.length + 1) key)).take n

/-- Embedding of `xor_numpy(data, xork)`: byte-wise XOR of `data` with the
key tiled to `data`'s length. -/
def xor_numpy (data key : List Nat) : List Nat :=
  List.zipWith (fun a b => a ^^^ b) data (npResize key data.length)

/-! ## Directory record codec (`KsPckFile`) -/

/-- One expected-continuation constraint of the UTF-8 acceptor: an
inclusive range of byte values the next byte must fall into. -/
abbrev Utf8Expect := List (Nat × Nat)

/-- UTF-8 acceptor (RFC 3629, the exact language accepted by Python's
strict `bytes.decode()`): `exp` lists the range constraints of the
pending continuation bytes of the current sequence. -/
def utf8Run : Utf8Expect → List Nat → Bool
  | [], [] => true
  | _ :: _, [] => false
  | [], b :: rest =>
      if b ≤ 0x7F then utf8Run [] rest
      else if 0xC2 ≤ b ∧ b ≤ 0xDF then utf8Run [(0x80, 0xBF)] rest
      else if b = 0xE0 then utf8Run [(0xA0, 0xBF), (0x80, 0xBF)] rest
      else if b = 0xED then utf8Run [(0x80, 0x9F), (0x80, 0xBF)] rest
      else if 0xE1 ≤ b ∧ b ≤ 0xEF then utf8Run [(0x80, 0xBF), (0x80, 0xBF)] rest
      else if b = 0xF0 then utf8Run [(0x90, 0xBF), (0x80, 0xBF), (0x80, 0xBF)] rest
      else if 0xF1 ≤ b ∧ b ≤ 0xF3 then utf8Run [(0x80, 0xBF), (0x80, 0xBF), (0x80, 0xBF)] rest
      else if b = 0xF4 then utf8Run [(0x80, 0x8F), (0x80, 0xBF), (0x80, 0xBF)] rest
      else false
  | (lo, hi) :: exp, b :: rest => (lo ≤ b && b ≤ hi) && utf8Run exp rest

/-- A byte sequence is valid UTF-8 (Python `bytes.decode()` succeeds on it). -/
def utf8Valid (l : List Nat) : Bool := utf8Run [] l

/-- Little-endian unsigned integer from the `n` bytes of `raw` starting
at offset `off` (the `struct.unpack("<...")` primitive). -/
def readLE (raw : List Nat) (off n : Nat) : Nat :=
  ((raw.drop off).take n).reverse.foldl (fun acc b => acc * 256 + b) 0

/-- Two's-complement reading of a `w`-bit unsigned value as a signed
integer (`struct` codes `h`, `i`, `q`). -/
def toSigned (w v : Nat) : Int :=
  if v < 2 ^ (w - 1) then (v : Int) else (v : Int) - 2 ^ w

/-- Python slice `l[:k]` for a (possibly negative) `k`. -/
def pyTakeTo (l : List Nat) (k : Int) : List Nat :=
  if k < 0 then l.take (l.length - (-k).toNat) else l.take k.toNat

/-- Decode failures of `KsPckFile.__init__`: a short buffer makes
`struct.unpack` raise `struct.error`; invalid text makes
`bytes.decode()` raise `UnicodeDecodeError`. -/
inductive DecodeErr where
  | structError
  | unicodeDecodeError
deriving DecidableEq, Repr

/-- Embedding of one decoded `KsPckFile` record. `file_path` holds the
UTF-8 bytes of the decoded path (the raw path field truncated by
`path_leng`); the numeric fields keep the source's names and signedness. -/
structure KsPckFile where
  file_path : List Nat
  align_0E0 : Int
  inf_flags : Int
  path_leng : Int
  path_fnv1 : Nat
  file_size : Int
  file_offs : Int
deriving DecidableEq, Repr, Inhabited

/-- Embedding of `KsPckFile.__init__(raw)`: fixed little-endian layout
(224-byte raw path, 4-byte alignment, signed 16-bit flags, signed 16-bit
path length, unsigned 64-bit fingerprint, signed 64-bit size and offset),
then the path is truncated to `path_leng` and UTF-8 decoded. -/
def kspckFileInit (raw : List Nat) : Except DecodeErr KsPckFile :=
  if raw.length < 256 then .error .structError
  else
    let path_raw := raw.take 224
    let path_leng := toSigned 16 (readLE raw 230 2)
    let file_path := pyTakeTo path_raw path_leng
    if utf8Valid file_path then
      .ok { file_path := file_path
            align_0E0 := toSigned 32 (readLE raw 224 4)
            inf_flags := toSigned 16 (readLE raw 228 2)
            path_leng := path_leng
            path_fnv1 := readLE raw 232 8
            file_size := toSigned 64 (readLE raw 240 8)
            file_offs := toSigned 64 (readLE raw 248 8) }
    else .error .unicodeDecodeError

/-- Python `member in flags` on an `IntFlag` is `flags & member == member`;
for the members used here (bits 0 and 8) only the low 16 bits of the
two's-complement pattern of `flags` matter. -/
def flagsContain (flags : Int) (member : Nat) : Bool :=
  ((flags % 65536).toNat &&& member) == member

deriving instance DecidableEq for Except

/-! ## Container index (`KsPck.parse_file_tbl`) -/

/-- `KsPck.FILE_TBL_SZ = 2 << 24` (32 MiB). -/
def FILE_TBL_SZ : Nat := 2 <<< 24

/-- `KsPck.FILE_ITM_SZ = 1 << 8` (256 bytes). -/
def FILE_ITM_SZ : Nat := 1 <<< 8

/-- Number of loop iterations of `parse_file_tbl`:
`int(FILE_TBL_SZ / FILE_ITM_SZ)` (the float division is exact). -/
def numItems : Nat := FILE_TBL_SZ / FILE_ITM_SZ

/-- The slice `ftbl[i * FILE_ITM_SZ : i * FILE_ITM_SZ + FILE_ITM_SZ]`. -/
def chunk (ftbl : List Nat) (i : Nat) : List Nat :=
  (ftbl.drop (i * FILE_ITM_SZ)).take FILE_ITM_SZ

/-- The `self.files` dictionary: fingerprint-keyed, insertion-ordered. -/
abbrev FileMap := List (Nat × KsPckFile)

/-- Python `dict` assignment `m[k] = v`: overwrite the entry in place if
the key is present, append otherwise. -/
def dictInsert (m : FileMap) (k : Nat) (v : KsPckFile) : FileMap :=
  match m with
  | [] => [(k, v)]
  | (k', v') :: rest => if k' = k then (k, v) :: rest else (k', v') :: dictInsert rest k v

/-- Python `dict` lookup `m[k]` (as an `Option`). -/
def dictGet (m : FileMap) (k : Nat) : Option KsPckFile :=
  (m.find? (fun p => p.1 == k)).map (fun p => p.2)

/-- Errors of index building and extraction. `parse_file_tbl` itself
raises `OSError` when `seek(-FILE_TBL_SZ, 2)` lands before the start of
a container smaller than the trailer (the spec taxonomy's
`TruncatedContainer`), and lets record-decode exceptions propagate;
`extract_file_async` raises `OSError` on a negative seek offset and
`ValueError` when `read` is called with a size below `-1`. -/
inductive PckError where
  | truncatedContainer
  | recordError (e : DecodeErr)
  | ioError
  | valueError
deriving DecidableEq, Repr

/-- Result state of a successful `parse_file_tbl`: the XOR key
(`self.xork`), the decrypted trailer (`self.ftbl`) and the fingerprint
index (`self.files`). -/
structure ParseResult where
  xork : List Nat
  ftbl : List Nat
  files : FileMap
deriving DecidableEq, Repr

/-- The raw trailer: `seek(-FILE_TBL_SZ, 2); read(FILE_TBL_SZ)`. -/
def trailerRaw (file : List Nat) : List Nat :=
  file.drop (file.length - FILE_TBL_SZ)

/-- The XOR key `self.xork = self.ftbl[-8:]`, taken from the raw trailer. -/
def trailerKey (file : List Nat) : List Nat :=
  (trailerRaw file).drop ((trailerRaw file).length - 8)

/-- The decrypted trailer `self.ftbl = xor_numpy(self.ftbl, self.xork)`. -/
def trailerDec (file : List Nat) : List Nat :=
  xor_numpy (trailerRaw file) (trailerKey file)

/-- The record loop of `parse_file_tbl`: decode chunk `i`, stop (without
indexing) at a zero fingerprint, otherwise insert and continue; `count`
iterations remain. -/
def parseLoop (ftbl : List Nat) : Nat → Nat → FileMap → Except DecodeErr FileMap
  | 0, _, files => .ok files
  | count + 1, i, files =>
    match kspckFileInit (chunk ftbl i) with
    | .error e => .error e
    | .ok fe =>
      if fe.path_fnv1 = 0 then .ok files
      else parseLoop ftbl count (i + 1) (dictInsert files fe.path_fnv1 fe)

/-- Embedding of `KsPck.parse_file_tbl`: read the raw 32 MiB trailer
(failing when the container is smaller), take its last 8 bytes as the
XOR key, decrypt the whole trailer with that key, then decode 256-byte
records until the zero-fingerprint sentinel. -/
def parse_file_tbl (file : List Nat) : Except PckError ParseResult :=
  if file.length < FILE_TBL_SZ then .error .truncatedContainer
  else
    match parseLoop (trailerDec file) numItems 0 [] with
    | .error e => .error (.recordError e)
    | .ok files => .ok { xork := trailerKey file, ftbl := trailerDec file, files := files }

/-- The record decoded from chunk `j` (meaningful when decoding succeeds). -/
def decodeAt (ftbl : List Nat) (j : Nat) : KsPckFile :=
  match kspckFileInit (chunk ftbl j) with
  | .ok fe => fe
  | .error _ => default

/-- The records decoded from the first `i` chunks, in chunk order. -/
def decodedPrefix (ftbl : List Nat) (i : Nat) : List KsPckFile :=
  (List.range i).map (decodeAt ftbl)

/-- The dictionary obtained by inserting the given records, in order,
keyed by their fingerprints. -/
def indexOfRecords (rs : List KsPckFile) : FileMap :=
  rs.foldl (fun m r => dictInsert m r.path_fnv1 r) []

/-! ## Extraction scheduler (`extract_file_async`) -/

/-- `f.read(size)` on the bytes from the current position: a
non-negative size reads at most that many bytes, `-1` reads to EOF, and
any other negative size raises `ValueError` (Python buffered readers
reject `read(n)` for `n < -1`). The `size` here is the record's signed
64-bit `file_size` field. -/
def pyRead (buf : List Nat) (size : Int) : Except PckError (List Nat) :=
  if size < -1 then .error .valueError
  else if size = -1 then .ok buf
  else .ok (buf.take size.toNat)

/-- ASCII-range model of `str.casefold()` over the path's UTF-8 bytes
(the sentinel it is compared against, `"content"`, is pure ASCII). -/
def asciiCasefold (s : List Nat) : List Nat :=
  s.map (fun b => if 65 ≤ b ∧ b ≤ 90 then b + 32 else b)

/-- The UTF-8 bytes of the in-place sentinel string `"content"`. -/
def contentBytes : List Nat := [99, 111, 110, 116, 101, 110, 116]

/-- Whether a path (as bytes) is rooted: it starts with the separator,
so it carries its own anchor. -/
def isAbsPath (p : List Nat) : Bool :=
  match p with
  | b :: _ => b == 47
  | [] => false

/-- `pathlib.Path(a) / b` as byte strings: when `b` is rooted, pathlib
discards the left operand entirely (the anchor of `b` wins); otherwise
the parts are concatenated with a separator. -/
def pathJoin (a b : List Nat) : List Nat :=
  if isAbsPath b then b else a ++ [47] ++ b

/-- The output-path resolution of `extract_file_async`: the record's
stored path is joined under `out_path` unless `out_path.casefold()`
equals `"content"`. -/
def resolveOutPath (out_path rec_path : List Nat) : List Nat :=
  if asciiCasefold out_path ≠ contentBytes then pathJoin out_path rec_path else rec_path

/-- The filesystem effect a worker performs after its read/decrypt steps. -/
inductive FsEffect where
  | mkdirP (path : List Nat)
  | writeFile (path : List Nat) (data : List Nat)
deriving DecidableEq, Repr

/-- Observable behaviour of one `extract_file_async` task: how many
payload bytes it read from the container, and what it materialized. -/
structure ExtractTrace where
  bytesRead : Nat
  effect : FsEffect
deriving DecidableEq, Repr

def effectPath : FsEffect → List Nat
  | .mkdirP p => p
  | .writeFile p _ => p

/-- Embedding of `extract_file_async(file_entry, kspkg_path, out_path,
xork, ...)`: seek to `file_offs` (a negative offset raises `OSError`) and
call `read(file_size)` — unconditionally, whatever the flags, failing
with `ValueError` when `file_size` is below `-1`; XOR-decrypt when the
`XorCipher` flag (bit 8) is set; resolve the output path; then either
create a directory (flag bit 0) or write the payload. -/
def extract_file_async (fe : KsPckFile) (container : List Nat)
    (out_path : List Nat) (xork : List Nat) : Except PckError ExtractTrace :=
  if fe.file_offs < 0 then .error .ioError
  else
    match pyRead (container.drop fe.file_offs.toNat) fe.file_size with
    | .error e => .error e
    | .ok raw =>
      let data := if flagsContain fe.inf_flags 256 then xor_numpy raw xork else raw
      let out := resolveOutPath out_path fe.file_path
      if flagsContain fe.inf_flags 1 then .ok { bytesRead := raw.length, effect := .mkdirP out }
      else .ok { bytesRead := raw.length, effect := .writeFile out data }

/-! ## Progress reporter (`ProgressTracker.print_progress`) -/

/-- What one progress line of `ProgressTracker.print_progress` displays.
The Python percentage is a float; it is modelled as a rational, which is
exact on the two code paths the claims touch. -/
structure ProgressLine where
  percentage : ℚ
  filled_length : Nat
  bar : List Char
deriving DecidableEq, Repr

/-- Embedding of `ProgressTracker.print_progress` for a tracker state of
`total` and `completed`: both conditionals are Python truthiness tests on
`self.total`, and the bar is 40 characters. -/
def print_progress (total completed : Nat) : ProgressLine :=
  { percentage := if total ≠ 0 then ((completed : ℚ) / (total : ℚ)) * 100 else 100
    filled_length := if total ≠ 0 then 40 * completed / total else 40
    bar :=
      let filled := if total ≠ 0 then 40 * completed / total else 40
      List.replicate filled '█' ++ List.replicate (40 - filled) '-' }

/-- A decodable 256-byte record flagged `Directory` with a non-zero
declared payload size. -/
def c5raw : List Nat :=
  [100] ++ List.replicate 223 0 ++ [0, 0, 0, 0] ++ [1, 0] ++ [1, 0] ++
    [170, 0, 0, 0, 0, 0, 0, 0] ++ [4, 0, 0, 0, 0, 0, 0, 0] ++ [0, 0, 0, 0, 0, 0, 0, 0]

/-- The record `c5raw` decodes to: `Directory` flag set, `size = 4`. -/
def c5rec : KsPckFile :=
  { file_path := [100], align_0E0 := 0, inf_flags := 1, path_leng := 1,
    path_fnv1 := 170, file_size := 4, file_offs := 0 }

/-- A decodable `Directory` record with zero size, for the amended claim. -/
def c5dirRec : KsPckFile :=
  { file_path := [100], align_0E0 := 0, inf_flags := 1, path_leng := 1,
    path_fnv1 := 170, file_size := 0, file_offs := 0 }

/-- A 256-byte record whose declared path length (300) exceeds the
224-byte path field, with a valid ASCII path field. -/
def c7raw : List Nat :=
  List.replicate 224 97 ++ [0, 0, 0, 0] ++ [0, 0] ++ [44, 1] ++
    [1, 0, 0, 0, 0, 0, 0, 0] ++ [0, 0, 0, 0, 0, 0, 0, 0] ++ [0, 0, 0, 0, 0, 0, 0, 0]

/-- The record `c7raw` decodes to, `path_leng = 300` and all. -/
def c7rec : KsPckFile :=
  { file_path := List.replicate 224 97, align_0E0 := 0, inf_flags := 0, path_leng := 300,
    path_fnv1 := 1, file_size := 0, file_offs := 0 }

/-- A plain file record used to instantiate the path-resolution claim. -/
def c8rec : KsPckFile :=
  { file_path := [97], align_0E0 := 0, inf_flags := 0, path_leng := 1,
    path_fnv1 := 7, file_size := 2, file_offs := 1 }

/-- The all-zero 32 MiB container: its chunk 0 is already the sentinel. -/
def zfile : List Nat := List.replicate FILE_TBL_SZ 0

/-- The record an all-zero 256-byte chunk decodes to (the sentinel). -/
def zeroRec : KsPckFile :=
  { file_path := [], align_0E0 := 0, inf_flags := 0, path_leng := 0,
    path_fnv1 := 0, file_size := 0, file_offs := 0 }

/-- First record of the duplicate-fingerprint trailer: path `"a"`,
fingerprint `0xAA`, size 4. -/
def rec1Bytes : List Nat :=
  [97] ++ List.replicate 223 0 ++ [0, 0, 0, 0] ++ [0, 0] ++ [1, 0] ++
    [170, 0, 0, 0, 0, 0, 0, 0] ++ [4, 0, 0, 0, 0, 0, 0, 0] ++ [0, 0, 0, 0, 0, 0, 0, 0]

/-- Second record: same fingerprint `0xAA`, size 5. -/
def rec2Bytes : List Nat :=
  [97] ++ List.replicate 223 0 ++ [0, 0, 0, 0] ++ [0, 0] ++ [1, 0] ++
    [170, 0, 0, 0, 0, 0, 0, 0] ++ [5, 0, 0, 0, 0, 0, 0, 0] ++ [0, 0, 0, 0, 0, 0, 0, 0]

def rec1Rec : KsPckFile :=
  { file_path := [97], align_0E0 := 0, inf_flags := 0, path_leng := 1,
    path_fnv1 := 170, file_size := 4, file_offs := 0 }

def rec2Rec : KsPckFile :=
  { file_path := [97], align_0E0 := 0, inf_flags := 0, path_leng := 1,
    path_fnv1 := 170, file_size := 5, file_offs := 0 }

/-- Zero padding filling the duplicate-fingerprint trailer to 32 MiB. -/
def padZ : List Nat := List.replicate (FILE_TBL_SZ - 512) 0

/-- A 32 MiB trailer holding two records with the same fingerprint, then
the sentinel. -/
def dupTrailer : List Nat := rec1Bytes ++ (rec2Bytes ++ padZ)

/-! ## Claims -/

set_option maxRecDepth 100000

/-! ## Lemmas and claims -/
lemma npResize_length (key : List Nat) (n : Nat) : (npResize key n).length = n := by
  unfold npResize
  by_cases hk : key = []
  · simp [hk]
  · have hpos : 0 < key.length := List.length_pos.mpr hk
    have hlen : (List.flatten (List.replicate (n / key.length + 1) key)).length
        = (n / key.length + 1) * key.length := by
      simp [List.length_flatten, Nat.mul_comm]
    have hmod : n % key.length < key.length := Nat.mod_lt _ hpos
    have hdm : key.length * (n / key.length) + n % key.length = n := Nat.div_add_mod n key.length
    have hlt : n < (n / key.length + 1) * key.length := by
      have : (n / key.length + 1) * key.length
          = key.length * (n / key.length) + key.length := by ring
      rw [this]
      generalize key.length * (n / key.length) = q at hdm ⊢
      omega
    simp [hk, hlen]
    omega

lemma length_xor_numpy (data key : List Nat) : (xor_numpy data key).length = data.length := by
  simp [xor_numpy, npResize_length]

lemma zipWith_xor_cancel (d : List Nat) :
    ∀ t : List Nat, d.length ≤ t.length →
      List.zipWith (fun a b => a ^^^ b) (List.zipWith (fun a b => a ^^^ b) d t) t = d := by
  induction d with
  | nil => intro t _; simp
  | cons a d ih =>
    intro t ht
    cases t with
    | nil => simp at ht
    | cons b t =>
      simp only [List.zipWith_cons_cons]
      refine congrArg₂ List.cons ?_ (ih t (by simpa using ht))
      simp [Nat.xor_assoc]

lemma getD_append_lt (l₁ l₂ : List Nat) (i : Nat) (h : i < l₁.length) :
    (l₁ ++ l₂).getD i 0 = l₁.getD i 0 := by
  induction l₁ generalizing i with
  | nil => simp at h
  | cons a l ih =>
    cases i with
    | zero => simp
    | succ j => simpa using ih j (by simpa using h)

lemma getD_append_ge (l₁ l₂ : List Nat) (i : Nat) (h : l₁.length ≤ i) :
    (l₁ ++ l₂).getD i 0 = l₂.getD (i - l₁.length) 0 := by
  induction l₁ generalizing i with
  | nil => simp
  | cons a l ih =>
    cases i with
    | zero => simp at h
    | succ j => simpa using ih j (by simpa using h)

lemma getD_take_lt (l : List Nat) (n i : Nat) (h : i < n) :
    (l.take n).getD i 0 = l.getD i 0 := by
  induction l generalizing n i with
  | nil => simp
  | cons a l ih =>
    cases n with
    | zero => omega
    | succ m =>
      cases i with
      | zero => simp
      | succ j => simpa using ih m j (by omega)

lemma getD_flatten_replicate (key : List Nat) :
    ∀ (m i : Nat), i < m * key.length →
      (List.flatten (List.replicate m key)).getD i 0 = key.getD (i % key.length) 0 := by
  intro m
  induction m with
  | zero => intro i hi; simp at hi
  | succ m ih =>
    intro i hi
    rw [List.replicate_succ, List.flatten_cons]
    by_cases hcase : i < key.length
    · rw [getD_append_lt _ _ _ hcase, Nat.mod_eq_of_lt hcase]
    · push_neg at hcase
      rw [getD_append_ge _ _ _ hcase]
      have hsub : i - key.length < m * key.length := by
        have : (m + 1) * key.length = m * key.length + key.length := by ring
        omega
      rw [ih _ hsub]
      obtain ⟨j, rfl⟩ : ∃ j, i = key.length + j := ⟨i - key.length, by omega⟩
      simp [Nat.add_mod_left]

lemma npResize_getD (key : List Nat) (hk : key ≠ []) (n i : Nat) (hi : i < n) :
    (npResize key n).getD i 0 = key.getD (i % key.length) 0 := by
  have hpos : 0 < key.length := List.length_pos.mpr hk
  have hlt : n < (n / key.length + 1) * key.length := by
    have hdm : key.length * (n / key.length) + n % key.length = n := Nat.div_add_mod n key.length
    have hmod : n % key.length < key.length := Nat.mod_lt _ hpos
    have heq : (n / key.length + 1) * key.length
        = key.length * (n / key.length) + key.length := by ring
    rw [heq]
    generalize key.length * (n / key.length) = q at hdm ⊢
    omega
  unfold npResize
  rw [if_neg hk, getD_take_lt _ _ _ hi, getD_flatten_replicate key _ i (by omega)]

lemma getD_zipWith_xor (d : List Nat) :
    ∀ (t : List Nat) (i : Nat), i < d.length → i < t.length →
      (List.zipWith (fun a b => a ^^^ b) d t).getD i 0 = (d.getD i 0) ^^^ (t.getD i 0) := by
  induction d with
  | nil => intro t i hd _; simp at hd
  | cons a d ih =>
    intro t i hd ht
    cases t with
    | nil => simp at ht
    | cons b t =>
      cases i with
      | zero => simp
      | succ j => simpa using ih t j (by simpa using hd) (by simpa using ht)

lemma flatten_replicate_zero_bytes (w : Nat) :
    ∀ m : Nat, List.flatten (List.replicate m (List.replicate w 0)) = List.replicate (m * w) (0 : Nat) := by
  intro m
  induction m with
  | zero => simp
  | succ m ih =>
    rw [List.replicate_succ, List.flatten_cons, ih]
    have : (m + 1) * w = w + m * w := by ring
    rw [this, List.replicate_add]

lemma zipWith_xor_zero (d : List Nat) :
    ∀ n : Nat, d.length ≤ n →
      List.zipWith (fun a b => a ^^^ b) d (List.replicate n 0) = d := by
  induction d with
  | nil => intro n _; simp
  | cons a d ih =>
    intro n hn
    cases n with
    | zero => simp at hn
    | succ m =>
      rw [List.replicate_succ, List.zipWith_cons_cons, ih m (by simpa using hn)]
      simp

/-- XOR with an all-zero 8-byte key is the identity. -/
lemma xor_numpy_zero_key (d : List Nat) : xor_numpy d (List.replicate 8 0) = d := by
  unfold xor_numpy npResize
  rw [if_neg (by simp), List.length_replicate, flatten_replicate_zero_bytes]
  rw [List.take_replicate]
  apply zipWith_xor_zero
  omega

/-- Core loop invariant: if the first `i` chunks (from `start`) decode to
non-sentinel records and chunk `start + i` decodes to the sentinel, the
loop returns after folding exactly those `i` records into the map. -/
lemma parseLoop_spec (ftbl : List Nat) :
    ∀ (i count start : Nat) (files : FileMap),
      i < count →
      (∀ j, j < i → ∃ r, kspckFileInit (chunk ftbl (start + j)) = .ok r ∧ r.path_fnv1 ≠ 0) →
      (∃ s, kspckFileInit (chunk ftbl (start + i)) = .ok s ∧ s.path_fnv1 = 0) →
      parseLoop ftbl count start files =
        .ok (((List.range i).map (fun j => decodeAt ftbl (start + j))).foldl
              (fun m r => dictInsert m r.path_fnv1 r) files) := by
  intro i
  induction i with
  | zero =>
    intro count start files hcount hok hsent
    obtain ⟨s, hs, hfp⟩ := hsent
    rw [Nat.add_zero] at hs
    cases count with
    | zero => omega
    | succ c =>
      simp [parseLoop, hs, hfp]
  | succ k ih =>
    intro count start files hcount hok hsent
    obtain ⟨r0, hr0, hfp0⟩ := hok 0 (Nat.succ_pos k)
    rw [Nat.add_zero] at hr0
    cases count with
    | zero => omega
    | succ c =>
      have hd0 : decodeAt ftbl start = r0 := by simp [decodeAt, hr0]
      rw [List.range_succ_eq_map, List.map_cons, List.foldl_cons, List.map_map]
      have hmap :
          (List.range k).map ((fun j => decodeAt ftbl (start + j)) ∘ Nat.succ)
            = (List.range k).map (fun j => decodeAt ftbl (start + 1 + j)) := by
        apply List.map_congr_left
        intro a _
        simp [Function.comp]
        ring_nf
      simp only [parseLoop, hr0, if_neg hfp0, Nat.add_zero, hd0, hmap]
      exact ih c (start + 1) (dictInsert files r0.path_fnv1 r0) (by omega)
        (fun j hj => by
          obtain ⟨r, hr, hrfp⟩ := hok (j + 1) (by omega)
          exact ⟨r, by rwa [show start + (j + 1) = start + 1 + j by omega] at hr, hrfp⟩)
        (by
          obtain ⟨s, hs, hsfp⟩ := hsent
          exact ⟨s, by rwa [show start + (k + 1) = start + 1 + k by omega] at hs, hsfp⟩)

/-- `parse_file_tbl` on a container holding a sentinel at chunk `i` of the
decrypted trailer: the index is built from exactly the `i` preceding
records. -/
lemma parse_eq (file : List Nat) (i : Nat)
    (hlen : FILE_TBL_SZ ≤ file.length) (hi : i < numItems)
    (hok : ∀ j, j < i →
      ∃ r, kspckFileInit (chunk (trailerDec file) j) = .ok r ∧ r.path_fnv1 ≠ 0)
    (hsent : ∃ s, kspckFileInit (chunk (trailerDec file) i) = .ok s ∧ s.path_fnv1 = 0) :
    parse_file_tbl file =
      .ok { xork := trailerKey file, ftbl := trailerDec file,
            files := indexOfRecords (decodedPrefix (trailerDec file) i) } := by
  have hloop := parseLoop_spec (trailerDec file) i numItems 0 [] hi
    (fun j hj => by simpa using hok j hj) (by simpa using hsent)
  unfold parse_file_tbl
  rw [if_neg (by omega)]
  rw [hloop]
  simp [indexOfRecords, decodedPrefix]

lemma dictGet_cons_self (k : Nat) (v : KsPckFile) (rest : FileMap) :
    dictGet ((k, v) :: rest) k = some v := by
  unfold dictGet
  rw [List.find?_cons_of_pos _ (by simp)]
  rfl

lemma dictGet_cons_ne (k k' : Nat) (v : KsPckFile) (rest : FileMap) (h : k' ≠ k) :
    dictGet ((k', v) :: rest) k = dictGet rest k := by
  unfold dictGet
  rw [List.find?_cons_of_neg _ (by simpa using h)]

lemma dictGet_insert_self (m : FileMap) (k : Nat) (v : KsPckFile) :
    dictGet (dictInsert m k v) k = some v := by
  induction m with
  | nil => exact dictGet_cons_self k v []
  | cons p rest ih =>
    obtain ⟨k', v'⟩ := p
    by_cases hk : k' = k
    · simp only [dictInsert, if_pos hk]
      exact dictGet_cons_self k v rest
    · simp only [dictInsert, if_neg hk]
      rw [dictGet_cons_ne _ _ _ _ hk]
      exact ih

lemma dictGet_insert_ne (m : FileMap) (k k' : Nat) (v : KsPckFile) (h : k' ≠ k) :
    dictGet (dictInsert m k' v) k = dictGet m k := by
  induction m with
  | nil =>
    simp only [dictInsert]
    rw [dictGet_cons_ne _ _ _ _ h]
  | cons p rest ih =>
    obtain ⟨k'', v''⟩ := p
    by_cases hk : k'' = k'
    · subst hk
      simp only [dictInsert, if_true]
      rw [dictGet_cons_ne _ _ _ _ h, dictGet_cons_ne _ _ _ _ h]
    · simp only [dictInsert, if_neg hk]
      by_cases hkk : k'' = k
      · subst hkk
        rw [dictGet_cons_self, dictGet_cons_self]
      · rw [dictGet_cons_ne _ _ _ _ hkk, dictGet_cons_ne _ _ _ _ hkk]
        exact ih

lemma dictGet_foldl_ne (rs : List KsPckFile) :
    ∀ (m : FileMap) (k : Nat), (∀ r ∈ rs, r.path_fnv1 ≠ k) →
      dictGet (rs.foldl (fun m r => dictInsert m r.path_fnv1 r) m) k = dictGet m k := by
  induction rs with
  | nil => intro m k _; rfl
  | cons r rs ih =>
    intro m k hne
    rw [List.foldl_cons, ih _ k (fun x hx => hne x (List.mem_cons_of_mem _ hx))]
    exact dictGet_insert_ne m k r.path_fnv1 r (hne r (List.mem_cons_self _ _))

/-- Last-write-wins for the fingerprint dictionary: if position `l` holds
fingerprint `k` and no later position does, the built index maps `k` to
the record at `l`. -/
lemma dictGet_indexOfRecords (rs : List KsPckFile) (l : Nat) (k : Nat)
    (hl : l < rs.length)
    (hk : (rs.getD l default).path_fnv1 = k)
    (hafter : ∀ m, l < m → m < rs.length → (rs.getD m default).path_fnv1 ≠ k) :
    dictGet (indexOfRecords rs) k = some (rs.getD l default) := by
  have hgetD : rs.getD l default = rs.get ⟨l, hl⟩ := by
    rw [List.get_eq_getElem]
    exact List.getD_eq_getElem rs default hl
  have hsplit : rs = rs.take l ++ rs.get ⟨l, hl⟩ :: rs.drop (l + 1) := by
    rw [List.get_eq_getElem]
    conv_lhs => rw [← List.take_append_drop l rs]
    rw [List.drop_eq_getElem_cons hl]
  rw [indexOfRecords]
  conv_lhs => rw [hsplit]
  rw [List.foldl_append, List.foldl_cons]
  have hlater : ∀ r ∈ rs.drop (l + 1), r.path_fnv1 ≠ k := by
    intro r hr
    obtain ⟨j, hj, hrj⟩ := List.mem_iff_getElem.mp hr
    have hjlen : l + 1 + j < rs.length := by
      have hjl := hj
      rw [List.length_drop] at hjl
      omega
    have hrval : r = rs.get ⟨l + 1 + j, hjlen⟩ := by
      rw [List.get_eq_getElem, ← hrj]
      exact List.getElem_drop rs
    have hne := hafter (l + 1 + j) (by omega) hjlen
    rw [List.getD_eq_getElem rs default hjlen] at hne
    rw [hrval, List.get_eq_getElem]
    exact hne
  rw [dictGet_foldl_ne _ _ _ hlater, hgetD, ← hk, hgetD]
  exact dictGet_insert_self _ _ _

/-- Claim C3: the stream cipher is involutive — for every byte buffer `d`
and every non-empty key `k`, `xor_numpy (xor_numpy d k) k = d`. -/
theorem claim3_xor_involutive (d k : List Nat) (_hk : k ≠ []) :
    xor_numpy (xor_numpy d k) k = d := by
  have h1 : (xor_numpy d k).length = d.length := length_xor_numpy d k
  conv_lhs => rw [xor_numpy, h1]
  rw [xor_numpy]
  exact zipWith_xor_cancel d (npResize k d.length) (le_of_eq (npResize_length k d.length).symm)

theorem claim3_witness :
    ([7] : List Nat) ≠ [] ∧ xor_numpy (xor_numpy [1, 2, 3] [7]) [7] = [1, 2, 3] :=
  ⟨by decide, claim3_xor_involutive [1, 2, 3] [7] (by decide)⟩

/-- Claim C4: for every data buffer and every non-empty key, `xor_numpy`
keeps the data's length, its byte `i` is `data[i] XOR key[i mod len key]`
(the key tiled cyclically, truncated to the data's length, for keys
shorter than, equal to, or longer than the data), and empty data yields
empty output. -/
theorem claim4_xor_pointwise (d k : List Nat) (hk : k ≠ []) :
    (xor_numpy d k).length = d.length ∧
    (∀ i, i < d.length →
      (xor_numpy d k).getD i 0 = (d.getD i 0) ^^^ (k.getD (i % k.length) 0)) ∧
    (d = [] → xor_numpy d k = []) := by
  refine ⟨length_xor_numpy d k, ?_, ?_⟩
  · intro i hi
    rw [xor_numpy, getD_zipWith_xor d (npResize k d.length) i hi
        (by rw [npResize_length]; exact hi),
      npResize_getD k hk d.length i hi]
  · intro hd
    subst hd
    rfl

theorem claim4_witness :
    ([255, 1] : List Nat) ≠ [] ∧
    ((xor_numpy [1, 2, 3, 4, 5] [255, 1]).length = ([1, 2, 3, 4, 5] : List Nat).length ∧
     (∀ i, i < ([1, 2, 3, 4, 5] : List Nat).length →
       (xor_numpy [1, 2, 3, 4, 5] [255, 1]).getD i 0 =
         (([1, 2, 3, 4, 5] : List Nat).getD i 0) ^^^
           (([255, 1] : List Nat).getD (i % ([255, 1] : List Nat).length) 0)) ∧
     (([1, 2, 3, 4, 5] : List Nat) = [] → xor_numpy [1, 2, 3, 4, 5] [255, 1] = [])) :=
  ⟨by decide, claim4_xor_pointwise [1, 2, 3, 4, 5] [255, 1] (by decide)⟩

/-- Claim C6: building the index for a container smaller than the fixed
32 MiB trailer fails with the truncated-container error (`parse_file_tbl`'s
`seek(-FILE_TBL_SZ, 2)` lands before offset 0 and raises). -/
theorem claim6_truncated_container (file : List Nat) (h : file.length < FILE_TBL_SZ) :
    parse_file_tbl file = .error .truncatedContainer := by
  unfold parse_file_tbl
  rw [if_pos h]

theorem claim6_witness :
    ([] : List Nat).length < FILE_TBL_SZ ∧
      parse_file_tbl [] = .error .truncatedContainer :=
  ⟨by decide, claim6_truncated_container [] (by decide)⟩

/-- Claim C10: a progress tracker whose `total` is zero never divides by
zero — `print_progress` then reports 100% with a completely filled
40-character bar, whatever `completed` is. -/
theorem claim10_progress_zero_total (completed : Nat) :
    print_progress 0 completed =
      { percentage := 100, filled_length := 40, bar := List.replicate 40 '█' } := by
  simp [print_progress]

/-- Claim C5 counterexample: extracting this decodable `Directory` record
reads 4 payload bytes from the container — the read step is not skipped
for directories, contradicting the claim that no payload bytes are read. -/
theorem claim5_counterexample :
    kspckFileInit c5raw = .ok c5rec ∧
    flagsContain c5rec.inf_flags 1 = true ∧
    extract_file_async c5rec [16, 32, 48, 64] contentBytes [1] =
      .ok { bytesRead := 4, effect := .mkdirP [100] } ∧
    (4 : Nat) ≠ 0 :=
  ⟨by decide, by decide, by decide, by decide⟩

/-- Successful extraction, shared shape of the extraction claims: with a
non-negative offset and a read size of at least `-1`, the worker's read
succeeds and it materializes its effect at the resolved output path — a
directory for flag bit 0, a file write otherwise. -/
lemma extract_file_async_ok (fe : KsPckFile) (container out_path xork : List Nat)
    (hoffs : 0 ≤ fe.file_offs) (hsize : -1 ≤ fe.file_size) :
    ∃ raw, pyRead (container.drop fe.file_offs.toNat) fe.file_size = .ok raw ∧
      extract_file_async fe container out_path xork =
        .ok { bytesRead := raw.length,
              effect :=
                if flagsContain fe.inf_flags 1 then
                  .mkdirP (resolveOutPath out_path fe.file_path)
                else
                  .writeFile (resolveOutPath out_path fe.file_path)
                    (if flagsContain fe.inf_flags 256 then xor_numpy raw xork else raw) } := by
  have hlt : ¬ fe.file_size < -1 := by omega
  by_cases hm1 : fe.file_size = -1
  · refine ⟨container.drop fe.file_offs.toNat, ?_, ?_⟩
    · rw [pyRead, if_neg hlt, if_pos hm1]
    · unfold extract_file_async
      rw [if_neg (by omega), pyRead, if_neg hlt, if_pos hm1]
      by_cases hdir : flagsContain fe.inf_flags 1 = true
      · simp [hdir]
      · simp [hdir]
  · refine ⟨(container.drop fe.file_offs.toNat).take fe.file_size.toNat, ?_, ?_⟩
    · rw [pyRead, if_neg hlt, if_neg hm1]
    · unfold extract_file_async
      rw [if_neg (by omega), pyRead, if_neg hlt, if_neg hm1]
      by_cases hdir : flagsContain fe.inf_flags 1 = true
      · simp [hdir]
      · simp [hdir]

/-- Claim C5 as amended: extracting a `Directory`-flagged record performs
the same container read as any record — it calls `read(record.size)` at
`record.offset`, reading no bytes when `size = 0` — and always
materializes a directory at the resolved output path, never a file
write. -/
theorem claim5_directory_extract_amended (fe : KsPckFile)
    (container out_path xork : List Nat)
    (hdir : flagsContain fe.inf_flags 1 = true) (hoffs : 0 ≤ fe.file_offs)
    (hsize : -1 ≤ fe.file_size) :
    ∃ raw, pyRead (container.drop fe.file_offs.toNat) fe.file_size = .ok raw ∧
      extract_file_async fe container out_path xork =
        .ok { bytesRead := raw.length,
              effect := .mkdirP (resolveOutPath out_path fe.file_path) } ∧
      (fe.file_size = 0 → raw.length = 0) := by
  obtain ⟨raw, hraw, hex⟩ := extract_file_async_ok fe container out_path xork hoffs hsize
  rw [if_pos hdir] at hex
  refine ⟨raw, hraw, hex, ?_⟩
  intro h0
  rw [h0] at hraw
  rw [pyRead, if_neg (by omega), if_neg (by omega)] at hraw
  injection hraw with hraw
  rw [← hraw]
  simp

theorem claim5_witness :
    flagsContain c5dirRec.inf_flags 1 = true ∧ (0 : Int) ≤ c5dirRec.file_offs ∧
    (-1 : Int) ≤ c5dirRec.file_size ∧
    ∃ raw, pyRead (([16, 32] : List Nat).drop c5dirRec.file_offs.toNat) c5dirRec.file_size
        = .ok raw ∧
      extract_file_async c5dirRec [16, 32] [111, 117, 116] [1] =
        .ok { bytesRead := raw.length,
              effect := .mkdirP (resolveOutPath [111, 117, 116] c5dirRec.file_path) } ∧
      (c5dirRec.file_size = 0 → raw.length = 0) :=
  ⟨by decide, by decide, by decide,
    claim5_directory_extract_amended c5dirRec [16, 32] [111, 117, 116] [1]
      (by decide) (by decide) (by decide)⟩

/-- Claim C7 counterexample: a record declaring `pathLength = 300 > 224`
decodes successfully — the Python slice clamps instead of failing, so no
`MalformedRecord` error is raised. -/
theorem claim7_counterexample :
    (224 : Int) < toSigned 16 (readLE c7raw 230 2) ∧
    kspckFileInit c7raw = .ok c7rec ∧ c7rec.path_leng = 300 :=
  ⟨by decide, by decide, by decide⟩

/-- Claim C7 as amended: a declared `pathLength` exceeding the 224-byte
capacity is not an error by itself — the path is truncated to the 224
available bytes, and the record decodes whenever those bytes are valid
UTF-8 text. -/
theorem claim7_overlong_path_length_amended (raw : List Nat)
    (hlen : raw.length = 256)
    (hleng : 224 < toSigned 16 (readLE raw 230 2))
    (hval : utf8Valid (raw.take 224) = true) :
    kspckFileInit raw =
      .ok { file_path := raw.take 224,
            align_0E0 := toSigned 32 (readLE raw 224 4),
            inf_flags := toSigned 16 (readLE raw 228 2),
            path_leng := toSigned 16 (readLE raw 230 2),
            path_fnv1 := readLE raw 232 8,
            file_size := toSigned 64 (readLE raw 240 8),
            file_offs := toSigned 64 (readLE raw 248 8) } := by
  have hp : pyTakeTo (raw.take 224) (toSigned 16 (readLE raw 230 2)) = raw.take 224 := by
    rw [pyTakeTo, if_neg (by omega)]
    apply List.take_of_length_le
    rw [List.length_take, hlen]
    omega
  unfold kspckFileInit
  rw [if_neg (by omega)]
  simp only [hp, hval, if_true]

theorem claim7_witness :
    c7raw.length = 256 ∧ (224 : Int) < toSigned 16 (readLE c7raw 230 2) ∧
    utf8Valid (c7raw.take 224) = true ∧
    kspckFileInit c7raw =
      .ok { file_path := c7raw.take 224,
            align_0E0 := toSigned 32 (readLE c7raw 224 4),
            inf_flags := toSigned 16 (readLE c7raw 228 2),
            path_leng := toSigned 16 (readLE c7raw 230 2),
            path_fnv1 := readLE c7raw 232 8,
            file_size := toSigned 64 (readLE c7raw 240 8),
            file_offs := toSigned 64 (readLE c7raw 248 8) } :=
  ⟨by decide, by decide, by decide,
    claim7_overlong_path_length_amended c7raw (by decide) (by decide) (by decide)⟩

/-- Claim C8: every extracted record's output path is resolved by the
sentinel rule — when `out_path` case-insensitively equals `"content"` the
record's stored path is used directly, otherwise the stored path is
joined under `out_path` with `pathlib`'s join (whose anchor rule lets a
rooted stored path replace the root) — and the extraction task
materializes its effect at exactly that resolved path. -/
theorem claim8_output_path_resolution (fe : KsPckFile)
    (container out_path xork : List Nat) (hoffs : 0 ≤ fe.file_offs)
    (hsize : -1 ≤ fe.file_size) :
    ∃ t, extract_file_async fe container out_path xork = .ok t ∧
      effectPath t.effect = resolveOutPath out_path fe.file_path ∧
      (asciiCasefold out_path = contentBytes →
        resolveOutPath out_path fe.file_path = fe.file_path) ∧
      (asciiCasefold out_path ≠ contentBytes →
        resolveOutPath out_path fe.file_path = pathJoin out_path fe.file_path) := by
  have hres1 : asciiCasefold out_path = contentBytes →
      resolveOutPath out_path fe.file_path = fe.file_path := by
    intro h
    simp [resolveOutPath, h]
  have hres2 : asciiCasefold out_path ≠ contentBytes →
      resolveOutPath out_path fe.file_path = pathJoin out_path fe.file_path := by
    intro h
    simp [resolveOutPath, h]
  obtain ⟨raw, _, hex⟩ := extract_file_async_ok fe container out_path xork hoffs hsize
  refine ⟨_, hex, ?_, hres1, hres2⟩
  by_cases hdir : flagsContain fe.inf_flags 1 = true
  · rw [if_pos hdir]
    rfl
  · rw [if_neg hdir]
    rfl

theorem claim8_witness :
    (0 : Int) ≤ c8rec.file_offs ∧ (-1 : Int) ≤ c8rec.file_size ∧
    ∃ t, extract_file_async c8rec [16, 32, 48] [111, 117, 116] [1] = .ok t ∧
      effectPath t.effect = resolveOutPath [111, 117, 116] c8rec.file_path ∧
      (asciiCasefold [111, 117, 116] = contentBytes →
        resolveOutPath [111, 117, 116] c8rec.file_path = c8rec.file_path) ∧
      (asciiCasefold [111, 117, 116] ≠ contentBytes →
        resolveOutPath [111, 117, 116] c8rec.file_path =
          pathJoin [111, 117, 116] c8rec.file_path) :=
  ⟨by decide, by decide,
    claim8_output_path_resolution c8rec [16, 32, 48] [111, 117, 116] [1]
      (by decide) (by decide)⟩

/-- Claim C1: index building decodes the decrypted trailer as consecutive
256-byte chunks from offset 0; when the first zero-fingerprint record
sits at chunk `i`, the resulting index is built from exactly the `i`
records before it — the sentinel is not indexed, and the result does not
depend on any chunk after `i`, whatever fingerprints those hold. -/
theorem claim1_index_stops_at_sentinel (file : List Nat) (i : Nat)
    (hlen : FILE_TBL_SZ ≤ file.length) (hi : i < numItems)
    (hok : ∀ j, j < i →
      ∃ r, kspckFileInit (chunk (trailerDec file) j) = .ok r ∧ r.path_fnv1 ≠ 0)
    (hsent : ∃ s, kspckFileInit (chunk (trailerDec file) i) = .ok s ∧ s.path_fnv1 = 0) :
    parse_file_tbl file =
      .ok { xork := trailerKey file, ftbl := trailerDec file,
            files := indexOfRecords (decodedPrefix (trailerDec file) i) } :=
  parse_eq file i hlen hi hok hsent

lemma zfile_length : zfile.length = FILE_TBL_SZ := by
  simp [zfile]

lemma trailerRaw_zfile : trailerRaw zfile = zfile := by
  rw [trailerRaw, zfile_length, Nat.sub_self, List.drop_zero]

lemma trailerKey_zfile : trailerKey zfile = List.replicate 8 0 := by
  rw [trailerKey, trailerRaw_zfile, zfile_length, zfile, List.drop_replicate]
  congr 1

lemma trailerDec_zfile : trailerDec zfile = zfile := by
  rw [trailerDec, trailerRaw_zfile, trailerKey_zfile, xor_numpy_zero_key]

lemma chunk_zfile_zero : chunk zfile 0 = List.replicate 256 0 := by
  rw [chunk, Nat.zero_mul, List.drop_zero, zfile, List.take_replicate]
  congr 1

theorem claim1_witness :
    FILE_TBL_SZ ≤ zfile.length ∧ 0 < numItems ∧
    (∀ j, j < 0 →
      ∃ r, kspckFileInit (chunk (trailerDec zfile) j) = .ok r ∧ r.path_fnv1 ≠ 0) ∧
    (∃ s, kspckFileInit (chunk (trailerDec zfile) 0) = .ok s ∧ s.path_fnv1 = 0) ∧
    parse_file_tbl zfile =
      .ok { xork := trailerKey zfile, ftbl := trailerDec zfile,
            files := indexOfRecords (decodedPrefix (trailerDec zfile) 0) } := by
  have hok : ∀ j, j < 0 →
      ∃ r, kspckFileInit (chunk (trailerDec zfile) j) = .ok r ∧ r.path_fnv1 ≠ 0 :=
    fun j hj => absurd hj (by omega)
  have hsent : ∃ s, kspckFileInit (chunk (trailerDec zfile) 0) = .ok s ∧ s.path_fnv1 = 0 := by
    rw [trailerDec_zfile, chunk_zfile_zero]
    exact ⟨zeroRec, by decide, by decide⟩
  exact ⟨by simp [zfile_length], by decide, hok, hsent,
    claim1_index_stops_at_sentinel zfile 0 (by simp [zfile_length]) (by decide) hok hsent⟩

/-- Claim C2: whenever index building succeeds, the XOR key it stored is
the last 8 bytes of the raw, still-encrypted trailer, the stored trailer
is the whole raw trailer decrypted with exactly that 8-byte key, and the
record index was decoded from that decrypted trailer. -/
lemma parseResult_xork (a b c) :
    ({ xork := a, ftbl := b, files := c } : ParseResult).xork = a := rfl

lemma parseResult_ftbl (a b c) :
    ({ xork := a, ftbl := b, files := c } : ParseResult).ftbl = b := rfl

lemma parseResult_files (a b c) :
    ({ xork := a, ftbl := b, files := c } : ParseResult).files = c := rfl

theorem claim2_key_and_decrypt (file : List Nat) (res : ParseResult)
    (h : parse_file_tbl file = .ok res) :
    res.xork = (trailerRaw file).drop ((trailerRaw file).length - 8) ∧
    res.xork.length = 8 ∧
    res.ftbl = xor_numpy (trailerRaw file) res.xork ∧
    parseLoop res.ftbl numItems 0 [] = .ok res.files := by
  have hnot : ¬ file.length < FILE_TBL_SZ := by
    intro hlt
    unfold parse_file_tbl at h
    rw [if_pos hlt] at h
    cases h
  cases hp : parseLoop (trailerDec file) numItems 0 [] with
  | error e =>
    exfalso
    have heq : parse_file_tbl file = .error (.recordError e) := by
      unfold parse_file_tbl
      rw [if_neg hnot, hp]
    rw [heq] at h
    cases h
  | ok files =>
    have heq : parse_file_tbl file =
        .ok { xork := trailerKey file, ftbl := trailerDec file, files := files } := by
      unfold parse_file_tbl
      rw [if_neg hnot, hp]
    rw [heq, Except.ok.injEq] at h
    subst h
    refine ⟨?_, ?_, ?_, ?_⟩
    · rw [parseResult_xork]
      rfl
    · rw [parseResult_xork, trailerKey, List.length_drop, trailerRaw, List.length_drop]
      have hge : FILE_TBL_SZ ≤ file.length := Nat.not_lt.mp hnot
      have h8 : (8 : Nat) ≤ FILE_TBL_SZ := by decide
      omega
    · rw [parseResult_ftbl, parseResult_xork]
      rfl
    · rw [parseResult_ftbl, parseResult_files]
      exact hp

/-- `parse_file_tbl` on the all-zero container: zero key, identity
decryption, empty index. -/
lemma parse_zfile :
    parse_file_tbl zfile = .ok { xork := List.replicate 8 0, ftbl := zfile, files := [] } := by
  have h := parse_eq zfile 0 (by simp [zfile_length]) (by decide)
    (fun j hj => absurd hj (by omega))
    (by
      rw [trailerDec_zfile, chunk_zfile_zero]
      exact ⟨zeroRec, by decide, by decide⟩)
  rw [h, trailerKey_zfile, trailerDec_zfile]
  rfl

theorem claim2_witness :
    parse_file_tbl zfile = .ok { xork := List.replicate 8 0, ftbl := zfile, files := [] } ∧
    (({ xork := List.replicate 8 0, ftbl := zfile, files := [] } : ParseResult).xork =
        (trailerRaw zfile).drop ((trailerRaw zfile).length - 8) ∧
      ({ xork := List.replicate 8 0, ftbl := zfile, files := [] } : ParseResult).xork.length = 8 ∧
      ({ xork := List.replicate 8 0, ftbl := zfile, files := [] } : ParseResult).ftbl =
        xor_numpy (trailerRaw zfile)
          ({ xork := List.replicate 8 0, ftbl := zfile, files := [] } : ParseResult).xork ∧
      parseLoop ({ xork := List.replicate 8 0, ftbl := zfile, files := [] } : ParseResult).ftbl
          numItems 0 [] =
        .ok ({ xork := List.replicate 8 0, ftbl := zfile, files := [] } : ParseResult).files) :=
  ⟨parse_zfile, claim2_key_and_decrypt zfile _ parse_zfile⟩

/-- Claim C9: index building is last-write-wins on fingerprints — with
the sentinel at chunk `i`, if chunk `l < i` decodes to fingerprint `k`
and no later pre-sentinel chunk holds `k`, the final index maps `k` to
the record of chunk `l` (in particular, of two colliding records the
later one wins). -/
theorem claim9_last_write_wins (file : List Nat) (i l k : Nat)
    (hlen : FILE_TBL_SZ ≤ file.length) (hi : i < numItems)
    (hok : ∀ j, j < i →
      ∃ r, kspckFileInit (chunk (trailerDec file) j) = .ok r ∧ r.path_fnv1 ≠ 0)
    (hsent : ∃ s, kspckFileInit (chunk (trailerDec file) i) = .ok s ∧ s.path_fnv1 = 0)
    (hl : l < i)
    (hkl : (decodeAt (trailerDec file) l).path_fnv1 = k)
    (hafter : ∀ m, l < m → m < i → (decodeAt (trailerDec file) m).path_fnv1 ≠ k) :
    ∃ res, parse_file_tbl file = .ok res ∧
      dictGet res.files k = some (decodeAt (trailerDec file) l) := by
  refine ⟨_, parse_eq file i hlen hi hok hsent, ?_⟩
  rw [parseResult_files]
  have hlen' : (decodedPrefix (trailerDec file) i).length = i := by
    simp [decodedPrefix]
  have hgd : ∀ m, m < i →
      (decodedPrefix (trailerDec file) i).getD m default = decodeAt (trailerDec file) m := by
    intro m hm
    rw [decodedPrefix, List.getD_eq_getElem _ _ (by simpa using hm), List.getElem_map,
      List.getElem_range]
  rw [← hgd l hl]
  apply dictGet_indexOfRecords _ l k (by omega)
  · rw [hgd l hl]
    exact hkl
  · intro m hm1 hm2
    rw [hgd m (by omega)]
    exact hafter m hm1 (by omega)

lemma rec1Bytes_length : rec1Bytes.length = FILE_ITM_SZ := by decide

lemma rec2Bytes_length : rec2Bytes.length = FILE_ITM_SZ := by decide

lemma dupTrailer_length : dupTrailer.length = FILE_TBL_SZ := by
  rw [dupTrailer, List.length_append, List.length_append, rec1Bytes_length, rec2Bytes_length,
    padZ, List.length_replicate]
  decide

lemma trailerRaw_dup : trailerRaw dupTrailer = dupTrailer := by
  rw [trailerRaw, dupTrailer_length, Nat.sub_self, List.drop_zero]

lemma trailerKey_dup : trailerKey dupTrailer = List.replicate 8 0 := by
  rw [trailerKey, trailerRaw_dup, dupTrailer_length]
  rw [show FILE_TBL_SZ - 8 = rec1Bytes.length + (rec2Bytes.length + (FILE_TBL_SZ - 520)) from
    by decide]
  rw [dupTrailer, List.drop_append, List.drop_append, padZ, List.drop_replicate]
  congr 1

lemma trailerDec_dup : trailerDec dupTrailer = dupTrailer := by
  rw [trailerDec, trailerRaw_dup, trailerKey_dup, xor_numpy_zero_key]

lemma chunk_dup_zero : chunk dupTrailer 0 = rec1Bytes := by
  rw [chunk, Nat.zero_mul, List.drop_zero, dupTrailer, List.take_left' rec1Bytes_length]

lemma chunk_dup_one : chunk dupTrailer 1 = rec2Bytes := by
  rw [chunk, Nat.one_mul, dupTrailer, List.drop_left' rec1Bytes_length,
    List.take_left' rec2Bytes_length]

lemma chunk_dup_two : chunk dupTrailer 2 = List.replicate 256 0 := by
  rw [chunk, show 2 * FILE_ITM_SZ = rec1Bytes.length + rec2Bytes.length from by decide]
  rw [dupTrailer, List.drop_append, List.drop_left, padZ, List.take_replicate]
  congr 1

lemma kspckFileInit_rec1 : kspckFileInit rec1Bytes = .ok rec1Rec := by decide

lemma kspckFileInit_rec2 : kspckFileInit rec2Bytes = .ok rec2Rec := by decide

theorem claim9_witness :
    FILE_TBL_SZ ≤ dupTrailer.length ∧ 2 < numItems ∧
    (∀ j, j < 2 →
      ∃ r, kspckFileInit (chunk (trailerDec dupTrailer) j) = .ok r ∧ r.path_fnv1 ≠ 0) ∧
    (∃ s, kspckFileInit (chunk (trailerDec dupTrailer) 2) = .ok s ∧ s.path_fnv1 = 0) ∧
    1 < 2 ∧ (decodeAt (trailerDec dupTrailer) 1).path_fnv1 = 170 ∧
    (∀ m, 1 < m → m < 2 → (decodeAt (trailerDec dupTrailer) m).path_fnv1 ≠ 170) ∧
    ∃ res, parse_file_tbl dupTrailer = .ok res ∧
      dictGet res.files 170 = some (decodeAt (trailerDec dupTrailer) 1) := by
  have hlen : FILE_TBL_SZ ≤ dupTrailer.length := by
    rw [dupTrailer_length]
  have hok : ∀ j, j < 2 →
      ∃ r, kspckFileInit (chunk (trailerDec dupTrailer) j) = .ok r ∧ r.path_fnv1 ≠ 0 := by
    intro j hj
    rw [trailerDec_dup]
    interval_cases j
    · rw [chunk_dup_zero, kspckFileInit_rec1]
      exact ⟨rec1Rec, rfl, by decide⟩
    · rw [chunk_dup_one, kspckFileInit_rec2]
      exact ⟨rec2Rec, rfl, by decide⟩
  have hsent : ∃ s, kspckFileInit (chunk (trailerDec dupTrailer) 2) = .ok s ∧ s.path_fnv1 = 0 := by
    rw [trailerDec_dup, chunk_dup_two]
    exact ⟨zeroRec, by decide, by decide⟩
  have hkl : (decodeAt (trailerDec dupTrailer) 1).path_fnv1 = 170 := by
    rw [trailerDec_dup]
    simp only [decodeAt, chunk_dup_one, kspckFileInit_rec2]
    decide
  have hafter : ∀ m, 1 < m → m < 2 → (decodeAt (trailerDec dupTrailer) m).path_fnv1 ≠ 170 := by
    intro m h1 h2
    omega
  exact ⟨hlen, by decide, hok, hsent, by decide, hkl, hafter,
    claim9_last_write_wins dupTrailer 2 1 170 hlen (by decide) hok hsent (by decide) hkl hafter⟩
